import Mathlib

/-!
Verification development for the OpenAPI documentation core of the
wpe-capi-docs repository: the example-value synthesizer
(`ResponseExampleGenerator` in `scripts/generate-docs.js`), the spec
loader/validator and slug derivation (`OpenAPIParser`), and the change
detector (`OpenAPIChangeDetector`).

Modelling conventions, used consistently below:
* JavaScript values are modelled by the inductive type `Json`; JS `null`
  is `Json.null`, while `Option` is used for fields that may be absent
  (`undefined`).  Optional string-valued fields that the source checks
  with JS truthiness (`if (x)`) are modelled as `Option String` where
  `none` stands for absent-or-empty (both are falsy in JS).
* JS numbers are modelled syntactically as a mantissa and a decimal
  exponent (`Json.num m d` stands for `m / 10^d`); only the literals
  `100` and `10.5` occur in the source.
* `JSON.stringify`-based equality comparisons in the source are modelled
  as structural equality of the corresponding Lean values.
* The recursion of `generateFromSchema` (which in JS is unbounded) is
  modelled with an explicit fuel parameter; `none` marks fuel
  exhaustion and is distinct from a successful `some Json.null`.
* String functions of the source (`toLowerCase`, `toUpperCase`,
  `replace`) are modelled over the character list of the string.
-/

namespace WpeCapi

/-- JSON-like values as produced by `js-yaml` and manipulated by the scripts. -/
inductive Json where
  | null
  | bool (b : Bool)
  | num (mant : Int) (dec : Nat)
  | str (s : String)
  | arr (xs : List Json)
  | obj (fields : List (String × Json))

mutual
/-- Structural (stringify-style) equality test on `Json`. -/
def Json.beq : Json → Json → Bool
  | .null, .null => true
  | .bool a, .bool b => a == b
  | .num a1 a2, .num b1 b2 => a1 == b1 && a2 == b2
  | .str a, .str b => a == b
  | .arr a, .arr b => Json.beqL a b
  | .obj a, .obj b => Json.beqF a b
  | _, _ => false
/-- Pointwise `Json.beq` on lists. -/
def Json.beqL : List Json → List Json → Bool
  | [], [] => true
  | x :: xs, y :: ys => Json.beq x y && Json.beqL xs ys
  | _, _ => false
/-- Pointwise `Json.beq` on field lists. -/
def Json.beqF : List (String × Json) → List (String × Json) → Bool
  | [], [] => true
  | (k1, v1) :: xs, (k2, v2) :: ys => k1 == k2 && Json.beq v1 v2 && Json.beqF xs ys
  | _, _ => false
end

mutual
/-- `Json.beq` decides equality. -/
def Json.beq_iff : (a b : Json) → (Json.beq a b = true ↔ a = b)
  | .null, .null => by simp [Json.beq]
  | .null, .bool _ => by simp [Json.beq]
  | .null, .num _ _ => by simp [Json.beq]
  | .null, .str _ => by simp [Json.beq]
  | .null, .arr _ => by simp [Json.beq]
  | .null, .obj _ => by simp [Json.beq]
  | .bool _, .null => by simp [Json.beq]
  | .bool _, .bool _ => by simp [Json.beq]
  | .bool _, .num _ _ => by simp [Json.beq]
  | .bool _, .str _ => by simp [Json.beq]
  | .bool _, .arr _ => by simp [Json.beq]
  | .bool _, .obj _ => by simp [Json.beq]
  | .num _ _, .null => by simp [Json.beq]
  | .num _ _, .bool _ => by simp [Json.beq]
  | .num _ _, .num _ _ => by simp [Json.beq]
  | .num _ _, .str _ => by simp [Json.beq]
  | .num _ _, .arr _ => by simp [Json.beq]
  | .num _ _, .obj _ => by simp [Json.beq]
  | .str _, .null => by simp [Json.beq]
  | .str _, .bool _ => by simp [Json.beq]
  | .str _, .num _ _ => by simp [Json.beq]
  | .str _, .str _ => by simp [Json.beq]
  | .str _, .arr _ => by simp [Json.beq]
  | .str _, .obj _ => by simp [Json.beq]
  | .arr _, .null => by simp [Json.beq]
  | .arr _, .bool _ => by simp [Json.beq]
  | .arr _, .num _ _ => by simp [Json.beq]
  | .arr _, .str _ => by simp [Json.beq]
  | .arr a, .arr b => by
      have h := Json.beqL_iff a b
      simp [Json.beq, h]
  | .arr _, .obj _ => by simp [Json.beq]
  | .obj _, .null => by simp [Json.beq]
  | .obj _, .bool _ => by simp [Json.beq]
  | .obj _, .num _ _ => by simp [Json.beq]
  | .obj _, .str _ => by simp [Json.beq]
  | .obj _, .arr _ => by simp [Json.beq]
  | .obj a, .obj b => by
      have h := Json.beqF_iff a b
      simp [Json.beq, h]
/-- `Json.beqL` decides equality of lists. -/
def Json.beqL_iff : (a b : List Json) → (Json.beqL a b = true ↔ a = b)
  | [], [] => by simp [Json.beqL]
  | [], _ :: _ => by simp [Json.beqL]
  | _ :: _, [] => by simp [Json.beqL]
  | x :: xs, y :: ys => by
      have h1 := Json.beq_iff x y
      have h2 := Json.beqL_iff xs ys
      simp [Json.beqL, h1, h2]
/-- `Json.beqF` decides equality of field lists. -/
def Json.beqF_iff : (a b : List (String × Json)) → (Json.beqF a b = true ↔ a = b)
  | [], [] => by simp [Json.beqF]
  | [], _ :: _ => by simp [Json.beqF]
  | _ :: _, [] => by simp [Json.beqF]
  | (k1, v1) :: xs, (k2, v2) :: ys => by
      have h1 := Json.beq_iff v1 v2
      have h2 := Json.beqF_iff xs ys
      simp [Json.beqF, h1, h2, and_assoc]
end

instance : DecidableEq Json := fun a b => decidable_of_iff (Json.beq a b = true) (Json.beq_iff a b)

/-- JavaScript truthiness of a JSON value (`NaN` is not representable here). -/
def jsTruthy : Json → Bool
  | .null => false
  | .bool b => b
  | .num m _ => m != 0
  | .str s => s != ""
  | .arr _ => true
  | .obj _ => true

/-- JS `x || d` on an optional JSON value: the default is taken when the
value is absent or falsy. -/
def jsOr (v : Option Json) (d : Json) : Json :=
  match v with
  | some j => if jsTruthy j then j else d
  | none => d

/-- Lowercase a string character-wise, as JS `toLowerCase` does on ASCII. -/
def jsToLower (s : String) : String := ⟨s.data.map Char.toLower⟩

/-- Uppercase a string character-wise, as JS `toUpperCase` does on ASCII. -/
def jsToUpper (s : String) : String := ⟨s.data.map Char.toUpper⟩

/-- JS `String.prototype.includes`: does `sub` occur inside `s`? -/
def jsIncludes (s sub : String) : Bool :=
  (List.range (s.data.length + 1)).any
    (fun i => ((s.data.drop i).take sub.data.length) == sub.data)

/-!
Schema nodes, as consumed by `ResponseExampleGenerator`
(`scripts/generate-docs.js`).  A node is a bag of optional fields probed
by the generator: `$ref`, `type`, `properties`, `required`, `items`,
`example`, `format`, `enum`, `minimum` and the `x-nullable` vendor flag.
A truthiness-checked field (`$ref`, `format`) is `none` when absent or
falsy; `properties`/`required`/`enum` are flattened to lists, the empty
list standing for absent (the generator treats both identically).
-/

/-- A schema node of the OpenAPI document. -/
inductive Schema where
  | mk (ref : Option String) (ty : Option String)
       (properties : List (String × Schema)) (required : List String)
       (items : Option Schema) (exampleVal : Option Json) (format : Option String)
       (enumVals : List Json) (minimum : Option Json) (xNullable : Bool)

/-- The `x-nullable` flag of a schema node. -/
def Schema.xNull : Schema → Bool
  | .mk _ _ _ _ _ _ _ _ _ x => x

/-- Schema reference name extraction: `schema.$ref.replace('#/definitions/', '')`. -/
def stripDefinitionsRef (r : String) : String :=
  if r.data.take 14 = "#/definitions/".data then ⟨r.data.drop 14⟩ else r

/-- The fixed UUID literal returned by `generateUUID`. -/
def generateUUID : String := "a1b2c3d4-e5f6-7890-abcd-ef1234567890"

/-- The keyword heuristic `generateStringByName` (the source also receives the
schema as a first argument but never reads it). -/
def generateStringByName (propName : String) : String :=
  let name := jsToLower propName
  if jsIncludes name "email" then "user@example.com"
  else if jsIncludes name "phone" then "1234567890"
  else if jsIncludes name "name" && !jsIncludes name "first" && !jsIncludes name "last" then
    "Example Name"
  else if jsIncludes name "first_name" || jsIncludes name "firstname" then "John"
  else if jsIncludes name "last_name" || jsIncludes name "lastname" then "Doe"
  else if jsIncludes name "description" then "Example description"
  else if jsIncludes name "message" then "Operation completed successfully"
  else if jsIncludes name "url" then "https://example.com"
  else if jsIncludes name "domain" then "example.com"
  else if jsIncludes name "cname" then "example.wpengine.com"
  else if jsIncludes name "version" then "1.0.0"
  else if jsIncludes name "status" then "active"
  else if jsIncludes name "environment" then "production"
  else if jsIncludes name "role" then "full"
  else if jsIncludes name "fingerprint" then
    "a1:b2:c3:d4:e5:f6:a7:b8:c9:d0:e1:f2:a3:b4:c5:d6"
  else if jsIncludes name "comment" then "user@example.com"
  else if jsIncludes name "public_key" then
    "ssh-rsa AAAAB3NzaC1yc2EAAAADAQABAAABAQ... user@example.com"
  else "example-value"

/-- `generateStringExample`.  `now` is the current clock rendered as an ISO
timestamp (`new Date().toISOString()` in the source).  The source calls
`generateStringByName(schema)` without a property name, so the heuristic
receives the empty string. -/
def generateStringExample (now : String) (ex : Option Json) (fmt : Option String)
    (enumVals : List Json) : Json :=
  match ex with
  | some e => e
  | none =>
    match fmt with
    | some f =>
      if f = "uuid" then Json.str generateUUID
      else if f = "email" then Json.str "user@example.com"
      else if f = "date-time" then Json.str now
      else if f = "uri" then Json.str "https://api.wpengineapi.com/v1/example"
      else Json.str (generateStringByName "")
    | none =>
      match enumVals with
      | e :: _ => e
      | [] => Json.str (generateStringByName "")

/-- `generateNumberExample`: explicit example, else declared minimum, else a
canned default depending on `schema.type`. -/
def generateNumberExample (ty : String) (ex minimum : Option Json) : Json :=
  match ex with
  | some e => e
  | none =>
    match minimum with
    | some m => m
    | none => if ty = "integer" then Json.num 100 0 else Json.num 105 1

/-- The property loop of `generateObjectExample`: skip a property that is
`x-nullable` and not required, otherwise synthesize it with `g` and insert
it under its name.  `none` propagates fuel exhaustion of `g`. -/
def generateObjectProps (g : Schema → Option Json) (required : List String) :
    List (String × Schema) → Option (List (String × Json))
  | [] => some []
  | (pn, ps) :: rest =>
    if ps.xNull && !(required.contains pn) then
      generateObjectProps g required rest
    else
      match g ps with
      | none => none
      | some v =>
        match generateObjectProps g required rest with
        | none => none
        | some l => some ((pn, v) :: l)

/-- `generateFromSchema` with explicit recursion fuel (the JS recursion is
unbounded; every JS recursive call costs one unit here, and `none` means
the fuel ran out).  `defs` is `this.definitions = spec.definitions || {}`. -/
def generateFromSchema (defs : List (String × Schema)) (now : String) :
    Nat → Schema → Option Json
  | 0 => fun _ => none
  | n + 1 => fun s =>
    match s with
    | .mk ref ty props req items ex fmt enumVals minimum _xn =>
      match ref with
      | some r =>
        -- Handle $ref references: resolve through the definitions table,
        -- returning null when the definition is missing.
        (match defs.lookup (stripDefinitionsRef r) with
         | some d => generateFromSchema defs now n d
         | none => some Json.null)
      | none =>
        match ty with
        | some t =>
          -- the `switch (schema.type)` dispatch
          if t = "object" then
            (generateObjectProps (generateFromSchema defs now n) req props).map Json.obj
          else if t = "array" then
            -- generateArrayExample: a single-element array when the item
            -- synthesizes to a truthy value, an empty array otherwise.
            (match items with
             | some it =>
               (match generateFromSchema defs now n it with
                | none => none
                | some j => some (if jsTruthy j then Json.arr [j] else Json.arr []))
             | none => some (Json.arr []))
          else if t = "string" then some (generateStringExample now ex fmt enumVals)
          else if t = "integer" then some (generateNumberExample "integer" ex minimum)
          else if t = "number" then some (generateNumberExample "number" ex minimum)
          else if t = "boolean" then
            some (match ex with | some e => e | none => Json.bool true)
          else
            -- default branch: `return schema.example || null`
            some (match ex with
                  | some e => if jsTruthy e then e else Json.null
                  | none => Json.null)
        | none =>
          some (match ex with
                | some e => if jsTruthy e then e else Json.null
                | none => Json.null)

mutual
/-- All reference names (after `#/definitions/` stripping) occurring anywhere
in a schema tree, without resolving them. -/
def refNames : Schema → List String
  | .mk ref _ props _ items _ _ _ _ _ =>
    (match ref with | some r => [stripDefinitionsRef r] | none => []) ++
    refNamesL props ++
    (match items with | some it => refNames it | none => [])
/-- `refNames` over a property list. -/
def refNamesL : List (String × Schema) → List String
  | [] => []
  | p :: rest => refNames p.2 ++ refNamesL rest
end

mutual
/-- A schema tree is clock-free when no node carries the `date-time` format,
the only format whose synthesis reads the current clock. -/
def clockFree : Schema → Bool
  | .mk _ _ props _ items _ fmt _ _ _ =>
    (fmt != some "date-time") && clockFreeL props &&
    (match items with | some it => clockFree it | none => true)
/-- `clockFree` over a property list. -/
def clockFreeL : List (String × Schema) → Bool
  | [] => true
  | p :: rest => clockFree p.2 && clockFreeL rest
end

/-- Acyclicity of a definitions table, witnessed by a rank function: every
reference occurring in a definition's body points to a strictly
lower-ranked name. -/
def Acyclic (defs : List (String × Schema)) (rank : String → Nat) : Prop :=
  ∀ p ∈ defs, ∀ m ∈ refNames p.2, rank m < rank p.1

/-- Every reference occurring inside the definitions table resolves. -/
def Resolvable (defs : List (String × Schema)) : Prop :=
  ∀ p ∈ defs, ∀ m ∈ refNames p.2, (defs.lookup m).isSome

/-!
`OpenAPIParser` (first document of `src/unnamed/part_004`): validation of
the loaded specification and slug / display-name derivation.
-/

/-- The fields of the loaded document read by `validateSpec`.  `swagger` and
`openapi` are truthiness-checked version markers; `paths` is `none` when
the key is absent (or null) and `some table` when present — note that a
present-but-empty table is a truthy JS object. -/
structure ParserSpec where
  swagger : Option String
  openapi : Option String
  paths : Option (List (String × Json))
deriving DecidableEq

/-- `validateSpec`: reject when both version markers are missing or when the
`paths` key is missing; the error carries the message thrown. -/
def validateSpec (s : ParserSpec) : Except String Unit :=
  if s.swagger = none ∧ s.openapi = none then
    Except.error "Invalid OpenAPI specification: missing version field"
  else if s.paths = none then
    Except.error "Invalid OpenAPI specification: missing paths"
  else
    Except.ok ()

/-- Insert `sep` between a lowercase letter and the following uppercase
letter, as the global regex replacement of `$1<sep>$2` for
`([a-z])([A-Z])` does. -/
def camelIns (sep : Char) : List Char → List Char
  | [] => []
  | [c] => [c]
  | c1 :: c2 :: rest =>
    if c1.isLower && c2.isUpper then c1 :: sep :: camelIns sep (c2 :: rest)
    else c1 :: camelIns sep (c2 :: rest)

/-- Characters matched by the `[\s_]` class. -/
def isWsOrUnderscore (c : Char) : Bool := c.isWhitespace || c == '_'

/-- Replace every maximal `[\s_]+` run by a single dash.  The flag records
whether the previous character belonged to such a run. -/
def collapseWsRuns : Bool → List Char → List Char
  | _, [] => []
  | inRun, c :: rest =>
    if isWsOrUnderscore c then
      (if inRun then [] else ['-']) ++ collapseWsRuns true rest
    else c :: collapseWsRuns false rest

/-- `kebabCase`: dash between camelCase humps, `[\s_]+` runs to dashes,
then lowercase. -/
def kebabCase (s : String) : String :=
  ⟨(collapseWsRuns false (camelIns '-' s.data)).map Char.toLower⟩

/-- Characters matched by `\w`. -/
def isWordChar (c : Char) : Bool := c.isAlphanum || c == '_'

/-- Uppercase every word character at a word boundary (`\b\w`); the flag
records whether the previous character was a word character. -/
def upperWordStarts : Bool → List Char → List Char
  | _, [] => []
  | prevW, c :: rest =>
    (if isWordChar c && !prevW then c.toUpper else c) :: upperWordStarts (isWordChar c) rest

/-- `titleCase`: space between camelCase humps, `_` and `-` to spaces, then
uppercase each word start. -/
def titleCase (s : String) : String :=
  ⟨upperWordStarts false
    ((camelIns ' ' s.data).map (fun c => if c == '_' || c == '-' then ' ' else c))⟩

/-- Strip `{` and `}`, turn `/` into `-`, and trim leading/trailing dash
runs: the path part of `generateSlug`. -/
def pathSlug (path : String) : String :=
  let noBraces := path.data.filter (fun c => !(c == '\x7b' || c == '\x7d'))
  let dashed := noBraces.map (fun c => if c == '/' then '-' else c)
  ⟨((dashed.dropWhile (· == '-')).reverse.dropWhile (· == '-')).reverse⟩

/-- `generateSlug`: kebab-cased operation id when present (`none` models a
missing or empty `operationId`), else lowercased method + dashed path.
`method` is the already-uppercased verb stored on the endpoint. -/
def generateSlug (method path : String) (operationId : Option String) : String :=
  match operationId with
  | some oid => kebabCase oid
  | none => jsToLower method ++ "-" ++ pathSlug path

/-- `generateDisplayName`: the summary when non-empty, else the title-cased
operation id, else `"VERB path"`. -/
def generateDisplayName (method path : String) (operationId : Option String)
    (summary : String) : String :=
  if summary = "" then
    match operationId with
    | some oid => titleCase oid
    | none => method ++ " " ++ path
  else summary

/-- Follows the spec's words, for comparison with `generateSlug`: "slug =
kebab-cased operation identifier if present, else verb (lowercased) +
kebab-cased path with `{}` stripped". -/
def slugPerSpec (method path : String) (operationId : Option String) : String :=
  match operationId with
  | some oid => kebabCase oid
  | none =>
    jsToLower method ++ "-" ++
      kebabCase ⟨path.data.filter (fun c => !(c == '\x7b' || c == '\x7d'))⟩

/-!
`OpenAPIChangeDetector` (second document of `src/unnamed/part_004`).
-/

/-- The operation fields projected by the detector's `extractEndpoints`. -/
structure RawOperation where
  operationId : Option Json
  summary : Option Json
  parameters : Option Json
  requestBody : Option Json
  responses : Option Json
deriving DecidableEq

/-- A raw parsed specification as read by the detector.  `definitions` is the
Swagger 2.0 schema table of the document; the detector only ever reads
`components.schemas`. -/
structure DiffSpec where
  paths : Option (List (String × List (String × RawOperation)))
  definitions : Option (List (String × Json))
  componentsSchemas : Option (List (String × Json))
  infoVersion : Option String
  infoTitle : Option String
deriving DecidableEq

/-- One flattened endpoint record built by the detector's `extractEndpoints`. -/
structure DiffEndpoint where
  path : String
  method : String
  operationId : Option Json
  summary : Option Json
  parameters : Json
  requestBody : Option Json
  responses : Json
deriving DecidableEq

/-- The HTTP verbs recognized as operations. -/
def httpMethods : List String :=
  ["get", "post", "put", "patch", "delete", "head", "options"]

/-- The record pushed by the detector's `extractEndpoints` for one verb of one
path: `parameters` defaults to `[]` and `responses` to `{}`, the method is
uppercased. -/
def mkDiffEndpoint (p : String) (mo : String × RawOperation) : DiffEndpoint :=
  { path := p
    method := jsToUpper mo.1
    operationId := mo.2.operationId
    summary := mo.2.summary
    parameters := jsOr mo.2.parameters (Json.arr [])
    requestBody := mo.2.requestBody
    responses := jsOr mo.2.responses (Json.obj []) }

/-- The detector's `extractEndpoints`: one record per recognized verb of each
path. -/
def extractDiffEndpoints (paths : List (String × List (String × RawOperation))) :
    List DiffEndpoint :=
  paths.flatMap (fun pi =>
    (pi.2.filter (fun mo => httpMethods.contains mo.1)).map (mkDiffEndpoint pi.1))

/-- `endpointChanged`: stringify-based whole-record comparison. -/
def endpointChanged (a b : DiffEndpoint) : Bool := decide (a ≠ b)

/-- `getEndpointChanges`: the changed facets, probing only summary,
parameters, requestBody and responses. -/
def getEndpointChanges (a b : DiffEndpoint) : List String :=
  (if a.summary ≠ b.summary then ["summary"] else []) ++
  (if a.parameters ≠ b.parameters then ["parameters"] else []) ++
  (if a.requestBody ≠ b.requestBody then ["requestBody"] else []) ++
  (if a.responses ≠ b.responses then ["responses"] else [])

/-- Does some endpoint of `l` share path and method with `e`? -/
def hasKeyOf (l : List DiffEndpoint) (e : DiffEndpoint) : Bool :=
  l.any (fun o => o.path == e.path && o.method == e.method)

/-- `compareEndpoints`: added, removed, and modified (with facet lists). -/
def compareEndpoints (oldE newE : List DiffEndpoint) :
    List DiffEndpoint × List DiffEndpoint × List (DiffEndpoint × List String) :=
  (newE.filter (fun e => !(hasKeyOf oldE e)),
   oldE.filter (fun e => !(hasKeyOf newE e)),
   newE.filterMap (fun e =>
     match oldE.find? (fun o => o.path == e.path && o.method == e.method) with
     | some o => if endpointChanged o e then some (e, getEndpointChanges o e) else none
     | none => none))

/-- `compareSchemas` over the two `components.schemas` tables: added,
removed, and modified schema names. -/
def compareSchemas (oldS newS : List (String × Json)) :
    List String × List String × List String :=
  let oldNames := oldS.map Prod.fst
  let newNames := newS.map Prod.fst
  (newNames.filter (fun nm => !(oldNames.contains nm)),
   oldNames.filter (fun nm => !(newNames.contains nm)),
   newNames.filter (fun nm =>
     oldNames.contains nm && decide (oldS.lookup nm ≠ newS.lookup nm)))

/-- One breaking-change record produced by `detectBreakingChanges`. -/
structure BreakingChange where
  type : String
  severity : String
  description : String
  endpoint : Option DiffEndpoint
  schema : Option String
deriving DecidableEq

/-- The change report assembled by `detectChanges` (its pure content: the
change buckets, the metadata flags, the breaking list and the two
externally consumed booleans). -/
structure ChangeReport where
  endpointsAdded : List DiffEndpoint
  endpointsRemoved : List DiffEndpoint
  endpointsModified : List (DiffEndpoint × List String)
  schemasAdded : List String
  schemasRemoved : List String
  schemasModified : List String
  versionChanged : Bool
  titleChanged : Bool
  breaking : List BreakingChange
  hasChanges : Bool
  hasBreakingChanges : Bool
deriving DecidableEq

/-- The comparison pipeline of `detectChanges`: `compareEndpoints`,
`compareSchemas`, `compareMetadata`, `detectBreakingChanges`, then
`hasSignificantChanges` and the breaking flag. -/
def detectChanges (oldSpec newSpec : DiffSpec) : ChangeReport :=
  let oldE := extractDiffEndpoints (oldSpec.paths.getD [])
  let newE := extractDiffEndpoints (newSpec.paths.getD [])
  let ce := compareEndpoints oldE newE
  let cs := compareSchemas (oldSpec.componentsSchemas.getD [])
    (newSpec.componentsSchemas.getD [])
  let versionChanged := decide (oldSpec.infoVersion ≠ newSpec.infoVersion)
  let titleChanged := decide (oldSpec.infoTitle ≠ newSpec.infoTitle)
  let breaking :=
    ce.2.1.map (fun e =>
      { type := "removed_endpoint", severity := "high"
        description := "Endpoint " ++ e.method ++ " " ++ e.path ++ " was removed"
        endpoint := some e, schema := none }) ++
    cs.2.1.map (fun nm =>
      { type := "removed_schema", severity := "medium"
        description := "Schema " ++ nm ++ " was removed"
        endpoint := none, schema := some nm })
  { endpointsAdded := ce.1
    endpointsRemoved := ce.2.1
    endpointsModified := ce.2.2
    schemasAdded := cs.1
    schemasRemoved := cs.2.1
    schemasModified := cs.2.2
    versionChanged := versionChanged
    titleChanged := titleChanged
    breaking := breaking
    hasChanges :=
      decide (0 < ce.1.length) || decide (0 < ce.2.1.length) ||
      decide (0 < ce.2.2.length) || decide (0 < cs.1.length) ||
      decide (0 < cs.2.1.length) || decide (0 < cs.2.2.length) ||
      versionChanged || titleChanged
    hasBreakingChanges := decide (0 < breaking.length) }

/-!  Supporting lemmas. -/

theorem lookup_mem {β : Type _} {l : List (String × β)} {k : String} {v : β}
    (h : l.lookup k = some v) : (k, v) ∈ l := by
  induction l with
  | nil => simp [List.lookup] at h
  | cons p rest ih =>
    obtain ⟨k', v'⟩ := p
    rw [List.lookup] at h
    by_cases hk : k = k'
    · subst hk
      simp at h
      subst h
      exact List.mem_cons_self _ _
    · have hb : (k == k') = false := by simp [hk]
      rw [hb] at h
      exact List.mem_cons_of_mem _ (ih h)

/-- Definitional unfolding of `generateObjectProps` at a cons cell. -/
theorem generateObjectProps_cons (g : Schema → Option Json) (req : List String)
    (pn : String) (ps : Schema) (rest : List (String × Schema)) :
    generateObjectProps g req ((pn, ps) :: rest) =
      (if ps.xNull && !(req.contains pn) then generateObjectProps g req rest
       else
         match g ps with
         | none => none
         | some v =>
           match generateObjectProps g req rest with
           | none => none
           | some l => some ((pn, v) :: l)) := rfl

/-- Definitional unfolding of `clockFree` at a node. -/
theorem clockFree_mk (ref ty : Option String) (props : List (String × Schema))
    (req : List String) (items : Option Schema) (ex : Option Json) (fmt : Option String)
    (enumVals : List Json) (minimum : Option Json) (xn : Bool) :
    clockFree (Schema.mk ref ty props req items ex fmt enumVals minimum xn) =
      ((fmt != some "date-time") && clockFreeL props &&
       (match items with | some it => clockFree it | none => true)) := by
  rw [clockFree.eq_def]

/-- Definitional unfolding of `refNames` at a node. -/
theorem refNames_mk (ref ty : Option String) (props : List (String × Schema))
    (req : List String) (items : Option Schema) (ex : Option Json) (fmt : Option String)
    (enumVals : List Json) (minimum : Option Json) (xn : Bool) :
    refNames (Schema.mk ref ty props req items ex fmt enumVals minimum xn) =
      (match ref with | some r => [stripDefinitionsRef r] | none => []) ++
      refNamesL props ++
      (match items with | some it => refNames it | none => []) := by
  rw [refNames.eq_def]

/-- Definitional unfolding of `generateFromSchema` on a reference node. -/
theorem generateFromSchema_ref (defs : List (String × Schema)) (now : String) (n : Nat)
    (r : String) (ty : Option String) (props : List (String × Schema)) (req : List String)
    (items : Option Schema) (ex : Option Json) (fmt : Option String)
    (enumVals : List Json) (minimum : Option Json) (xn : Bool) :
    generateFromSchema defs now (n + 1)
        (Schema.mk (some r) ty props req items ex fmt enumVals minimum xn) =
      (match defs.lookup (stripDefinitionsRef r) with
       | some d => generateFromSchema defs now n d
       | none => some Json.null) := rfl

/-- Definitional unfolding of `generateFromSchema` on a non-reference node with
a declared type. -/
theorem generateFromSchema_ty (defs : List (String × Schema)) (now : String) (n : Nat)
    (t : String) (props : List (String × Schema)) (req : List String)
    (items : Option Schema) (ex : Option Json) (fmt : Option String)
    (enumVals : List Json) (minimum : Option Json) (xn : Bool) :
    generateFromSchema defs now (n + 1)
        (Schema.mk none (some t) props req items ex fmt enumVals minimum xn) =
      (if t = "object" then
        (generateObjectProps (generateFromSchema defs now n) req props).map Json.obj
       else if t = "array" then
        (match items with
         | some it =>
           (match generateFromSchema defs now n it with
            | none => none
            | some j => some (if jsTruthy j then Json.arr [j] else Json.arr []))
         | none => some (Json.arr []))
       else if t = "string" then some (generateStringExample now ex fmt enumVals)
       else if t = "integer" then some (generateNumberExample "integer" ex minimum)
       else if t = "number" then some (generateNumberExample "number" ex minimum)
       else if t = "boolean" then
        some (match ex with | some e => e | none => Json.bool true)
       else
        some (match ex with
              | some e => if jsTruthy e then e else Json.null
              | none => Json.null)) := rfl

theorem generateObjectProps_congr {g1 g2 : Schema → Option Json} {props : List (String × Schema)}
    (req : List String) (h : ∀ p ∈ props, g1 p.2 = g2 p.2) :
    generateObjectProps g1 req props = generateObjectProps g2 req props := by
  induction props with
  | nil => rfl
  | cons p rest ih =>
    obtain ⟨pn, ps⟩ := p
    have hhead : g1 ps = g2 ps := h (pn, ps) (List.mem_cons_self _ _)
    have htail : generateObjectProps g1 req rest = generateObjectProps g2 req rest :=
      ih (fun q hq => h q (List.mem_cons_of_mem _ hq))
    rw [generateObjectProps_cons, generateObjectProps_cons]
    by_cases hc : (ps.xNull && !(req.contains pn)) = true
    · rw [if_pos hc, if_pos hc, htail]
    · rw [if_neg hc, if_neg hc, hhead, htail]

theorem clockFreeL_mem {props : List (String × Schema)} {p : String × Schema}
    (h : clockFreeL props = true) (hp : p ∈ props) : clockFree p.2 = true := by
  induction props with
  | nil => simp at hp
  | cons q rest ih =>
    have h' : (clockFree q.2 && clockFreeL rest) = true := h
    rw [Bool.and_eq_true] at h'
    rcases List.mem_cons.mp hp with rfl | hmem
    · exact h'.1
    · exact ih h'.2 hmem

theorem generateStringExample_clockFree {now1 now2 : String} {ex : Option Json}
    {fmt : Option String} {enumVals : List Json} (h : fmt ≠ some "date-time") :
    generateStringExample now1 ex fmt enumVals = generateStringExample now2 ex fmt enumVals := by
  cases ex with
  | some e => rfl
  | none =>
    cases fmt with
    | none => rfl
    | some f =>
      have hf : f ≠ "date-time" := by intro hf; exact h (by rw [hf])
      simp [generateStringExample, hf]

/-- Clock independence of synthesis on clock-free schemas: the induction is on
the fuel, mirroring the recursion of `generateFromSchema`. -/
theorem generateFromSchema_clockFree (defs : List (String × Schema)) (now1 now2 : String) :
    ∀ (fuel : Nat) (s : Schema), clockFree s = true →
      (∀ p ∈ defs, clockFree p.2 = true) →
      generateFromSchema defs now1 fuel s = generateFromSchema defs now2 fuel s := by
  intro fuel
  induction fuel with
  | zero => intro s _ _; rfl
  | succ n ih =>
    intro s hs hd
    obtain ⟨ref, ty, props, req, items, ex, fmt, enumVals, minimum, xn⟩ := s
    rw [clockFree_mk, Bool.and_eq_true, Bool.and_eq_true] at hs
    obtain ⟨⟨hfmt, hprops⟩, hitems⟩ := hs
    cases ref with
    | some r =>
      rw [generateFromSchema_ref, generateFromSchema_ref]
      cases hlk : defs.lookup (stripDefinitionsRef r) with
      | some d => exact ih d (hd _ (lookup_mem hlk)) hd
      | none => rfl
    | none =>
      cases ty with
      | none => rfl
      | some t =>
        rw [generateFromSchema_ty, generateFromSchema_ty]
        by_cases ho : t = "object"
        · rw [if_pos ho, if_pos ho, generateObjectProps_congr req
            (fun p hp => ih p.2 (clockFreeL_mem hprops hp) hd)]
        · rw [if_neg ho, if_neg ho]
          by_cases ha : t = "array"
          · rw [if_pos ha, if_pos ha]
            cases items with
            | some it =>
              show (match generateFromSchema defs now1 n it with
                    | none => none
                    | some j => some (if jsTruthy j then Json.arr [j] else Json.arr [])) =
                   (match generateFromSchema defs now2 n it with
                    | none => none
                    | some j => some (if jsTruthy j then Json.arr [j] else Json.arr []))
              rw [ih it (by exact hitems) hd]
            | none => rfl
          · rw [if_neg ha, if_neg ha]
            by_cases hstr : t = "string"
            · rw [if_pos hstr, if_pos hstr,
                generateStringExample_clockFree (by simpa using hfmt)]
            · rw [if_neg hstr, if_neg hstr]

theorem generateObjectProps_keys {g : Schema → Option Json} {req : List String} :
    ∀ {props : List (String × Schema)} {l : List (String × Json)},
      generateObjectProps g req props = some l →
      ∀ k ∈ l.map Prod.fst, k ∈ props.map Prod.fst := by
  intro props
  induction props with
  | nil =>
    intro l h k hk
    cases h
    simp at hk
  | cons p rest ih =>
    intro l h k hk
    obtain ⟨pn, ps⟩ := p
    rw [generateObjectProps_cons] at h
    by_cases hc : (ps.xNull && !(req.contains pn)) = true
    · rw [if_pos hc] at h
      exact List.mem_cons_of_mem _ (ih h k hk)
    · rw [if_neg hc] at h
      cases hg : g ps with
      | none => rw [hg] at h; cases h
      | some v =>
        rw [hg] at h
        cases hrest : generateObjectProps g req rest with
        | none => rw [hrest] at h; cases h
        | some l' =>
          rw [hrest] at h
          cases h
          simp only [List.map_cons, List.mem_cons] at hk ⊢
          rcases hk with rfl | hk
          · exact Or.inl rfl
          · exact Or.inr (ih hrest k hk)

theorem generateObjectProps_mem_skip {g : Schema → Option Json} {req : List String}
    {pn : String} {ps : Schema} :
    ∀ {props : List (String × Schema)} {l : List (String × Json)},
      (props.map Prod.fst).Nodup → (pn, ps) ∈ props →
      (ps.xNull && !(req.contains pn)) = true →
      generateObjectProps g req props = some l → pn ∉ l.map Prod.fst := by
  intro props
  induction props with
  | nil => intro l _ hmem; simp at hmem
  | cons q rest ih =>
    intro l hnd hmem hskip h
    obtain ⟨qn, qs⟩ := q
    rw [List.map_cons, List.nodup_cons] at hnd
    rw [generateObjectProps_cons] at h
    rcases List.mem_cons.mp hmem with heq | hmem'
    · -- the property is the head
      injection heq with h1 h2
      subst h1; subst h2
      rw [if_pos hskip] at h
      intro hin
      exact hnd.1 (generateObjectProps_keys h pn hin)
    · -- the property is in the tail
      have hpn : pn ∈ rest.map Prod.fst :=
        List.mem_map.mpr ⟨(pn, ps), hmem', rfl⟩
      have hne : pn ≠ qn := fun he => hnd.1 (he ▸ hpn)
      by_cases hc : (qs.xNull && !(req.contains qn)) = true
      · rw [if_pos hc] at h
        exact ih hnd.2 hmem' hskip h
      · rw [if_neg hc] at h
        cases hg : g qs with
        | none => rw [hg] at h; cases h
        | some v =>
          rw [hg] at h
          cases hrest : generateObjectProps g req rest with
          | none => rw [hrest] at h; cases h
          | some l' =>
            rw [hrest] at h
            cases h
            simp only [List.map_cons, List.mem_cons]
            rintro (rfl | hin)
            · exact hne rfl
            · exact ih hnd.2 hmem' hskip hrest hin

theorem generateObjectProps_mem_keep {g : Schema → Option Json} {req : List String}
    {pn : String} {ps : Schema} :
    ∀ {props : List (String × Schema)} {l : List (String × Json)},
      (props.map Prod.fst).Nodup → (pn, ps) ∈ props →
      (ps.xNull && !(req.contains pn)) = false →
      generateObjectProps g req props = some l →
      ∃ v, (pn, v) ∈ l ∧ g ps = some v := by
  intro props
  induction props with
  | nil => intro l _ hmem; simp at hmem
  | cons q rest ih =>
    intro l hnd hmem hkeep h
    obtain ⟨qn, qs⟩ := q
    rw [List.map_cons, List.nodup_cons] at hnd
    rw [generateObjectProps_cons] at h
    rcases List.mem_cons.mp hmem with heq | hmem'
    · injection heq with h1 h2
      subst h1; subst h2
      rw [if_neg (by rw [hkeep]; exact Bool.false_ne_true)] at h
      cases hg : g ps with
      | none => rw [hg] at h; cases h
      | some v =>
        rw [hg] at h
        cases hrest : generateObjectProps g req rest with
        | none => rw [hrest] at h; cases h
        | some l' =>
          rw [hrest] at h
          cases h
          exact ⟨v, List.mem_cons_self _ _, rfl⟩
    · by_cases hc : (qs.xNull && !(req.contains qn)) = true
      · rw [if_pos hc] at h
        exact ih hnd.2 hmem' hkeep h
      · rw [if_neg hc] at h
        cases hg : g qs with
        | none => rw [hg] at h; cases h
        | some v =>
          rw [hg] at h
          cases hrest : generateObjectProps g req rest with
          | none => rw [hrest] at h; cases h
          | some l' =>
            rw [hrest] at h
            cases h
            obtain ⟨w, hw, hgw⟩ := ih hnd.2 hmem' hkeep hrest
            exact ⟨w, List.mem_cons_of_mem _ hw, hgw⟩

/-!  Concrete sample schemas used in counterexamples and witnesses. -/

/-- A string schema with `format: date-time`. -/
def dateTimeSchema : Schema :=
  Schema.mk none (some "string") [] [] none none (some "date-time") [] none false

/-- A string schema with `format: uuid`. -/
def uuidSchema : Schema :=
  Schema.mk none (some "string") [] [] none none (some "uuid") [] none false

/-- A nullable optional string schema (`x-nullable: true`). -/
def nicknameSchema : Schema :=
  Schema.mk none (some "string") [] [] none none none [] none true

/-- The object schema of the spec's synthesis test case:
`{type: object, properties: {id: uuid string, nickname: nullable string},
required: [id]}`. -/
def nullableExampleSchema : Schema :=
  Schema.mk none (some "object") [("id", uuidSchema), ("nickname", nicknameSchema)]
    ["id"] none none none [] none false

/-!  Claim C1. -/

/-- C1 (counterexample to the claim as stated): synthesizing a node whose
reference is absent from the definitions table silently succeeds with the
value `null` instead of failing with a `SchemaResolutionError`. -/
theorem C1_counterexample :
    ([] : List (String × Schema)).lookup "Missing" = none ∧
    generateFromSchema [] "2024-01-01T00:00:00.000Z" 1
        (Schema.mk (some "#/definitions/Missing") none [] [] none none none [] none false) =
      some Json.null :=
  ⟨rfl, by decide⟩

/-- C1 (amended): for every schema node that is a reference whose stripped
name is absent from the definitions table, synthesis of the node silently
succeeds with the value `null`; no error is raised. -/
theorem C1_dangling_reference_yields_null (defs : List (String × Schema)) (now : String)
    (n : Nat) (r : String) (ty : Option String) (props : List (String × Schema))
    (req : List String) (items : Option Schema) (ex : Option Json) (fmt : Option String)
    (enumVals : List Json) (minimum : Option Json) (xn : Bool)
    (h : defs.lookup (stripDefinitionsRef r) = none) :
    generateFromSchema defs now (n + 1)
        (Schema.mk (some r) ty props req items ex fmt enumVals minimum xn) =
      some Json.null := by
  rw [generateFromSchema_ref, h]

/-- C1 witness: the amended theorem applied at a concrete dangling reference. -/
theorem C1_witness :
    ([] : List (String × Schema)).lookup (stripDefinitionsRef "#/definitions/Gone") = none ∧
    generateFromSchema [] "t" 1
        (Schema.mk (some "#/definitions/Gone") none [] [] none none none [] none false) =
      some Json.null :=
  ⟨rfl, C1_dangling_reference_yields_null [] "t" 0 "#/definitions/Gone" none [] [] none
    none none [] none false rfl⟩

/-!  Claim C2. -/

/-- C2 (counterexample to the claim as stated): synthesis is not a function of
the input document alone — a `date-time` formatted string schema
synthesizes to the current timestamp, so two runs at different clock
values differ. -/
theorem C2_counterexample :
    generateFromSchema [] "2024-01-01T00:00:00.000Z" 1 dateTimeSchema ≠
      generateFromSchema [] "2024-01-01T00:00:00.001Z" 1 dateTimeSchema := by
  decide

/-- C2 (amended): synthesis is a deterministic function of the document and
the current clock, and it reads the clock only through `date-time`
formatted string nodes: on a clock-free schema (with a clock-free
definitions table) the result is identical across runs at different clock
values. -/
theorem C2_clock_free_determinism (defs : List (String × Schema)) (now1 now2 : String)
    (fuel : Nat) (s : Schema) (hs : clockFree s = true)
    (hd : ∀ p ∈ defs, clockFree p.2 = true) :
    generateFromSchema defs now1 fuel s = generateFromSchema defs now2 fuel s :=
  generateFromSchema_clockFree defs now1 now2 fuel s hs hd

/-- C2 witness: the amended theorem applied to a concrete clock-free schema. -/
theorem C2_witness :
    clockFree uuidSchema = true ∧
    generateFromSchema [] "2024-01-01T00:00:00.000Z" 1 uuidSchema =
      generateFromSchema [] "2024-01-01T00:00:00.001Z" 1 uuidSchema :=
  ⟨by decide,
   C2_clock_free_determinism [] "2024-01-01T00:00:00.000Z" "2024-01-01T00:00:00.001Z" 1
     uuidSchema (by decide) (fun p hp => absurd hp (List.not_mem_nil p))⟩

/-!  Claim C6. -/

/-- C6: when synthesizing an object schema, a declared property that is
marked nullable and not required is omitted from the result, and every
other declared property is present with its recursively synthesized
value; in particular the `{id: uuid string (required), nickname: nullable
string}` schema synthesizes to an object with a UUID-shaped `id` and no
`nickname` key. -/
theorem C6_object_nullable_omission (defs : List (String × Schema)) (now : String)
    (fuel : Nat) (props : List (String × Schema)) (req : List String)
    (items : Option Schema) (ex : Option Json) (fmt : Option String)
    (enumVals : List Json) (minimum : Option Json) (xn : Bool)
    (pn : String) (ps : Schema) (l : List (String × Json))
    (hnd : (props.map Prod.fst).Nodup) (hmem : (pn, ps) ∈ props)
    (hgen : generateFromSchema defs now (fuel + 1)
        (Schema.mk none (some "object") props req items ex fmt enumVals minimum xn) =
      some (Json.obj l)) :
    (ps.xNull = true ∧ pn ∉ req → pn ∉ l.map Prod.fst) ∧
    (¬(ps.xNull = true ∧ pn ∉ req) →
      ∃ v, (pn, v) ∈ l ∧ generateFromSchema defs now fuel ps = some v) ∧
    generateFromSchema [] now 2 nullableExampleSchema =
      some (Json.obj [("id", Json.str "a1b2c3d4-e5f6-7890-abcd-ef1234567890")]) := by
  rw [generateFromSchema_ty, if_pos rfl] at hgen
  rcases Option.map_eq_some'.mp hgen with ⟨a, ha, hb⟩
  have hal : a = l := by injection hb
  subst hal
  refine ⟨?_, ?_, rfl⟩
  · intro ⟨hx, hreq⟩
    have hb' : (ps.xNull && !(req.contains pn)) = true := by simp [hx, hreq]
    exact generateObjectProps_mem_skip hnd hmem hb' ha
  · intro hk
    have hb' : (ps.xNull && !(req.contains pn)) = false := by
      rw [not_and_or] at hk
      rcases hk with hx | hr
      · simp [Bool.not_eq_true] at hx
        simp [hx]
      · simp at hr
        simp [hr]
    exact generateObjectProps_mem_keep hnd hmem hb' ha

/-- C6 witness: the theorem applied at the spec's concrete test schema. -/
theorem C6_witness :
    (([("id", uuidSchema), ("nickname", nicknameSchema)].map Prod.fst).Nodup ∧
      ("nickname", nicknameSchema) ∈ [("id", uuidSchema), ("nickname", nicknameSchema)] ∧
      generateFromSchema [] "t" 2 nullableExampleSchema =
        some (Json.obj [("id", Json.str "a1b2c3d4-e5f6-7890-abcd-ef1234567890")])) ∧
    ((nicknameSchema.xNull = true ∧ "nickname" ∉ ["id"] →
        "nickname" ∉ [("id", Json.str "a1b2c3d4-e5f6-7890-abcd-ef1234567890")].map Prod.fst) ∧
      (¬(nicknameSchema.xNull = true ∧ "nickname" ∉ ["id"]) →
        ∃ v, ("nickname", v) ∈ [("id", Json.str "a1b2c3d4-e5f6-7890-abcd-ef1234567890")] ∧
          generateFromSchema [] "t" 1 nicknameSchema = some v) ∧
      generateFromSchema [] "t" 2 nullableExampleSchema =
        some (Json.obj [("id", Json.str "a1b2c3d4-e5f6-7890-abcd-ef1234567890")])) :=
  ⟨⟨by decide, List.mem_cons_of_mem _ (List.mem_cons_self _ _), by decide⟩,
   C6_object_nullable_omission [] "t" 1 [("id", uuidSchema), ("nickname", nicknameSchema)]
     ["id"] none none none [] none false "nickname" nicknameSchema
     [("id", Json.str "a1b2c3d4-e5f6-7890-abcd-ef1234567890")]
     (by decide) (List.mem_cons_of_mem _ (List.mem_cons_self _ _)) (by decide)⟩

/-!  Claim C7. -/

/-- C7 (counterexample to the claim as stated): when the operation identifier
is absent the slug is not the kebab-cased brace-stripped path — the
fallback keeps the path's original letter case (and underscores), so for
`GET /accounts/\x7baccountId\x7d` the produced slug `get-accounts-accountId`
differs from the spec-worded `slugPerSpec` value. -/
theorem C7_counterexample :
    generateSlug "GET" "/accounts/\x7baccountId\x7d" none = "get-accounts-accountId" ∧
    slugPerSpec "GET" "/accounts/\x7baccountId\x7d" none = "get-/accounts/account-id" ∧
    generateSlug "GET" "/accounts/\x7baccountId\x7d" none ≠
      slugPerSpec "GET" "/accounts/\x7baccountId\x7d" none := by
  refine ⟨by decide, by decide, by decide⟩

/-- C7 (amended): the slug is the kebab-cased operation identifier when one is
present, and otherwise the lowercased verb, a dash, and the path with
braces removed, slashes turned into dashes and leading/trailing dash runs
trimmed (the path keeps its own case and underscores); the display name is
the summary when non-empty, else the title-cased operation identifier,
else `"VERB path"`. -/
theorem C7_slug_and_displayName (method path oid : String) (operationId : Option String)
    (summary : String) (hs : summary ≠ "") :
    generateSlug method path (some oid) = kebabCase oid ∧
    generateSlug method path none =
      jsToLower method ++ "-" ++
        (⟨((((path.data.filter (fun c => !(c == '\x7b' || c == '\x7d'))).map
              (fun c => if c == '/' then '-' else c)).dropWhile
              (· == '-')).reverse.dropWhile (· == '-')).reverse⟩ : String) ∧
    generateDisplayName method path operationId summary = summary ∧
    generateDisplayName method path (some oid) "" = titleCase oid ∧
    generateDisplayName method path none "" = method ++ " " ++ path := by
  refine ⟨rfl, rfl, ?_, rfl, rfl⟩
  rw [generateDisplayName.eq_def, if_neg hs]

/-- C7 witness: the amended theorem applied at concrete inputs. -/
theorem C7_witness :
    ("List accounts" ≠ "") ∧
    (generateSlug "GET" "/accounts" (some "listAccounts") = kebabCase "listAccounts" ∧
     generateSlug "GET" "/accounts" none =
       jsToLower "GET" ++ "-" ++
         (⟨(((("/accounts".data.filter (fun c => !(c == '\x7b' || c == '\x7d'))).map
               (fun c => if c == '/' then '-' else c)).dropWhile
               (· == '-')).reverse.dropWhile (· == '-')).reverse⟩ : String) ∧
     generateDisplayName "GET" "/accounts" (some "listAccounts") "List accounts" =
       "List accounts" ∧
     generateDisplayName "GET" "/accounts" (some "listAccounts") "" =
       titleCase "listAccounts" ∧
     generateDisplayName "GET" "/accounts" none "" = "GET" ++ " " ++ "/accounts") :=
  ⟨by decide,
   C7_slug_and_displayName "GET" "/accounts" "listAccounts" (some "listAccounts")
     "List accounts" (by decide)⟩

/-!  Claim C8. -/

/-- The parsed document with a version marker and a present-but-empty path
table. -/
def emptyPathsSpec : ParserSpec :=
  { swagger := some "2.0", openapi := none, paths := some [] }

/-- C8 (counterexample to the claim as stated): a document whose path table is
present but empty passes validation — the source only checks that the
`paths` key is truthy, and an empty JS object is truthy. -/
theorem C8_counterexample :
    emptyPathsSpec.paths = some [] ∧ validateSpec emptyPathsSpec = Except.ok () :=
  ⟨rfl, rfl⟩

/-- C8 (amended): validation fails naming the missing field when the document
lacks both version markers, or (having a marker) lacks the `paths` key
entirely; any document with a marker and a present path table — empty or
not — passes validation. -/
theorem C8_validateSpec_cases (s : ParserSpec) :
    (s.swagger = none ∧ s.openapi = none →
      validateSpec s = Except.error "Invalid OpenAPI specification: missing version field") ∧
    (¬(s.swagger = none ∧ s.openapi = none) → s.paths = none →
      validateSpec s = Except.error "Invalid OpenAPI specification: missing paths") ∧
    (∀ table, ¬(s.swagger = none ∧ s.openapi = none) → s.paths = some table →
      validateSpec s = Except.ok ()) := by
  refine ⟨?_, ?_, ?_⟩
  · intro h
    rw [validateSpec, if_pos h]
  · intro h hp
    rw [validateSpec, if_neg h, if_pos hp]
  · intro table h hp
    rw [validateSpec, if_neg h, if_neg (by rw [hp]; exact Option.some_ne_none _)]

/-- C8 witness: the amended theorem applied at three concrete documents. -/
theorem C8_witness :
    validateSpec { swagger := none, openapi := none, paths := some [("/a", Json.null)] } =
      Except.error "Invalid OpenAPI specification: missing version field" ∧
    validateSpec { swagger := some "2.0", openapi := none, paths := none } =
      Except.error "Invalid OpenAPI specification: missing paths" ∧
    validateSpec { swagger := some "2.0", openapi := none, paths := some [("/a", Json.null)] } =
      Except.ok () :=
  ⟨(C8_validateSpec_cases _).1 ⟨rfl, rfl⟩,
   (C8_validateSpec_cases _).2.1 (by simp) rfl,
   (C8_validateSpec_cases _).2.2 [("/a", Json.null)] (by simp) rfl⟩

/-!  Concrete documents for the change-detector claims. -/

/-- A raw operation with an operation id and a summary. -/
def opA : RawOperation :=
  { operationId := some (Json.str "getAccount")
    summary := some (Json.str "Get account")
    parameters := none, requestBody := none, responses := none }

/-- The same operation with only the operation id changed. -/
def opB : RawOperation := { opA with operationId := some (Json.str "getAccountV2") }

/-- A document with one GET operation. -/
def specA : DiffSpec :=
  { paths := some [("/accounts", [("get", opA)])], definitions := none
    componentsSchemas := none, infoVersion := some "1.0", infoTitle := some "API" }

/-- `specA` with only the operation id of its one operation changed. -/
def specB : DiffSpec := { specA with paths := some [("/accounts", [("get", opB)])] }

/-!  Claim C10. -/

/-- C10: there is a pair of documents — differing only in one operation's
`operationId` — whose diff reports that endpoint as Modified with an
empty changed-facet list: `endpointChanged` compares the whole extracted
record (including the operation id) while `getEndpointChanges` probes only
summary, parameters, requestBody and responses. -/
theorem C10_modified_with_empty_changes :
    (detectChanges specA specB).endpointsModified =
      [({ path := "/accounts", method := "GET"
          operationId := some (Json.str "getAccountV2")
          summary := some (Json.str "Get account")
          parameters := Json.arr [], requestBody := none
          responses := Json.obj [] }, ([] : List String))] ∧
    specA.paths ≠ specB.paths := by
  refine ⟨by decide, by decide⟩

/-!  Claim C3. -/

/-- A Swagger 2.0 style document carrying its schema table under
`definitions`. -/
def swaggerDefsOld : DiffSpec :=
  { paths := none
    definitions := some [("Account", Json.obj [("type", Json.str "object")])]
    componentsSchemas := none, infoVersion := some "1.0", infoTitle := some "API" }

/-- `swaggerDefsOld` with its `definitions` table emptied. -/
def swaggerDefsNew : DiffSpec := { swaggerDefsOld with definitions := some [] }

/-- C3 (counterexample to the claim as stated): the schema diff is not
computed over the document's `definitions` table — removing the schema
`Account` from a Swagger 2.0 `definitions` table yields no Removed record
(and no change at all), because `compareSchemas` reads only
`components.schemas`. -/
theorem C3_counterexample :
    "Account" ∈ (swaggerDefsOld.definitions.getD []).map Prod.fst ∧
    "Account" ∉ (swaggerDefsNew.definitions.getD []).map Prod.fst ∧
    (detectChanges swaggerDefsOld swaggerDefsNew).schemasRemoved = [] ∧
    (detectChanges swaggerDefsOld swaggerDefsNew).hasChanges = false := by
  refine ⟨by decide, by decide, by decide, by decide⟩

/-- C3 (amended): the schema diff is computed, keyed by schema name, over the
two `components.schemas` tables: a name only in the new table is Added, a
name only in the old table is Removed, and a name in both whose bodies
are structurally (stringify) unequal is Modified; names under the Swagger
2.0 `definitions` key do not participate. -/
theorem C3_schema_diff_by_components (o n : DiffSpec) (nm : String) :
    (nm ∈ (detectChanges o n).schemasAdded ↔
      nm ∈ (n.componentsSchemas.getD []).map Prod.fst ∧
      nm ∉ (o.componentsSchemas.getD []).map Prod.fst) ∧
    (nm ∈ (detectChanges o n).schemasRemoved ↔
      nm ∈ (o.componentsSchemas.getD []).map Prod.fst ∧
      nm ∉ (n.componentsSchemas.getD []).map Prod.fst) ∧
    (nm ∈ (detectChanges o n).schemasModified ↔
      nm ∈ (n.componentsSchemas.getD []).map Prod.fst ∧
      nm ∈ (o.componentsSchemas.getD []).map Prod.fst ∧
      (o.componentsSchemas.getD []).lookup nm ≠ (n.componentsSchemas.getD []).lookup nm) := by
  refine ⟨?_, ?_, ?_⟩
  · show nm ∈ ((n.componentsSchemas.getD []).map Prod.fst).filter
      (fun x => !(((o.componentsSchemas.getD []).map Prod.fst).contains x)) ↔ _
    rw [List.mem_filter]
    simp
  · show nm ∈ ((o.componentsSchemas.getD []).map Prod.fst).filter
      (fun x => !(((n.componentsSchemas.getD []).map Prod.fst).contains x)) ↔ _
    rw [List.mem_filter]
    simp
  · show nm ∈ ((n.componentsSchemas.getD []).map Prod.fst).filter
      (fun x => ((o.componentsSchemas.getD []).map Prod.fst).contains x &&
        decide ((o.componentsSchemas.getD []).lookup x ≠
          (n.componentsSchemas.getD []).lookup x)) ↔ _
    rw [List.mem_filter]
    simp [and_assoc]

/-!  Claim C5. -/

/-- A Swagger 2.0 style document whose schema table under `definitions`
contains `Installation`. -/
def defsBreakOld : DiffSpec :=
  { paths := none
    definitions := some [("Installation", Json.obj [("type", Json.str "object")])]
    componentsSchemas := none, infoVersion := some "1.0", infoTitle := some "API" }

/-- `defsBreakOld` with its `definitions` table emptied. -/
def defsBreakNew : DiffSpec := { defsBreakOld with definitions := some [] }

/-- C5 (counterexample to the claim as stated): a schema name present in the
old document's `definitions` table and absent from the new one yields no
medium-severity BreakingChange — no breaking record at all — because
`detectBreakingChanges` classifies only removals that `compareSchemas`
found, and `compareSchemas` reads only `components.schemas`. -/
theorem C5_counterexample :
    "Installation" ∈ (defsBreakOld.definitions.getD []).map Prod.fst ∧
    "Installation" ∉ (defsBreakNew.definitions.getD []).map Prod.fst ∧
    (detectChanges defsBreakOld defsBreakNew).breaking = [] ∧
    (detectChanges defsBreakOld defsBreakNew).hasBreakingChanges = false := by
  refine ⟨by decide, by decide, by decide, by decide⟩

/-- C5 (amended): the breaking-change list is exactly one high-severity record
per removed endpoint followed by one medium-severity record per schema
name removed from the `components.schemas` table — names removed from the
Swagger 2.0 `definitions` table yield none — nothing else; every record
is of one of those two shapes; and `hasBreakingChanges` holds iff the
list is non-empty. -/
theorem C5_breaking_classification (o n : DiffSpec) :
    (detectChanges o n).breaking =
      ((extractDiffEndpoints (o.paths.getD [])).filter
          (fun e => !(hasKeyOf (extractDiffEndpoints (n.paths.getD [])) e))).map
        (fun e =>
          { type := "removed_endpoint", severity := "high"
            description := "Endpoint " ++ e.method ++ " " ++ e.path ++ " was removed"
            endpoint := some e, schema := none }) ++
      (((o.componentsSchemas.getD []).map Prod.fst).filter
          (fun nm => !(((n.componentsSchemas.getD []).map Prod.fst).contains nm))).map
        (fun nm =>
          { type := "removed_schema", severity := "medium"
            description := "Schema " ++ nm ++ " was removed"
            endpoint := none, schema := some nm }) ∧
    (∀ b ∈ (detectChanges o n).breaking,
      (b.severity = "high" ∧ b.type = "removed_endpoint" ∧
        ∃ e ∈ (detectChanges o n).endpointsRemoved, b.endpoint = some e) ∨
      (b.severity = "medium" ∧ b.type = "removed_schema" ∧
        ∃ nm ∈ (detectChanges o n).schemasRemoved, b.schema = some nm)) ∧
    ((detectChanges o n).hasBreakingChanges = true ↔ (detectChanges o n).breaking ≠ []) := by
  refine ⟨rfl, ?_, ?_⟩
  · intro b hb
    rcases List.mem_append.mp hb with hb | hb
    · rcases List.mem_map.mp hb with ⟨e, he, rfl⟩
      exact Or.inl ⟨rfl, rfl, e, he, rfl⟩
    · rcases List.mem_map.mp hb with ⟨nm, hnm, rfl⟩
      exact Or.inr ⟨rfl, rfl, nm, hnm, rfl⟩
  · have h : (detectChanges o n).hasBreakingChanges =
        decide (0 < (detectChanges o n).breaking.length) := rfl
    rw [h, decide_eq_true_iff, List.length_pos]

/-- A document with one operation and one component schema. -/
def selfDiffSpec : DiffSpec :=
  { paths := some [("/accounts", [("get", opA)])]
    definitions := none
    componentsSchemas := some [("Account", Json.obj [("type", Json.str "object")])]
    infoVersion := some "1.0", infoTitle := some "API" }

/-- A document with no paths and no component schemas. -/
def emptyDiffSpec : DiffSpec :=
  { paths := some [], definitions := none, componentsSchemas := some []
    infoVersion := some "1.0", infoTitle := some "API" }

/-- The high-severity record produced for the removal of `GET /accounts`. -/
def removedAccountsBC : BreakingChange :=
  { type := "removed_endpoint", severity := "high"
    description := "Endpoint GET /accounts was removed"
    endpoint := some (mkDiffEndpoint "/accounts" ("get", opA))
    schema := none }

/-- C5 witness: the classification theorem applied at a concrete pair of
documents in which one endpoint and one schema are removed, and at the
concrete breaking record of the removed endpoint. -/
theorem C5_witness :
    ((detectChanges selfDiffSpec emptyDiffSpec).hasBreakingChanges = true ↔
      (detectChanges selfDiffSpec emptyDiffSpec).breaking ≠ []) ∧
    ((removedAccountsBC.severity = "high" ∧ removedAccountsBC.type = "removed_endpoint" ∧
        ∃ e ∈ (detectChanges selfDiffSpec emptyDiffSpec).endpointsRemoved,
          removedAccountsBC.endpoint = some e) ∨
      (removedAccountsBC.severity = "medium" ∧ removedAccountsBC.type = "removed_schema" ∧
        ∃ nm ∈ (detectChanges selfDiffSpec emptyDiffSpec).schemasRemoved,
          removedAccountsBC.schema = some nm)) :=
  ⟨(C5_breaking_classification selfDiffSpec emptyDiffSpec).2.2,
   (C5_breaking_classification selfDiffSpec emptyDiffSpec).2.1 removedAccountsBC (by decide)⟩

/-!  Claim C4. -/

/-- The (path, method) keys of an endpoint list are pairwise distinct. -/
def keysDistinctB : List DiffEndpoint → Bool
  | [] => true
  | e :: rest =>
    rest.all (fun o => !(o.path == e.path && o.method == e.method)) && keysDistinctB rest

/-- Unique keys, as in a JS object. -/
def nodupKeysB : List String → Bool
  | [] => true
  | a :: rest => !(rest.contains a) && nodupKeysB rest

/-- The well-keyedness every JS-parsed document has: path keys are unique and
the verb keys of each path item are unique. -/
def pathsWellKeyedB (paths : List (String × List (String × RawOperation))) : Bool :=
  nodupKeysB (paths.map Prod.fst) &&
  paths.all (fun pi => nodupKeysB (pi.2.map Prod.fst))

/-- Uppercasing is injective on the seven recognized verbs. -/
theorem jsToUpper_verb_inj :
    ∀ m1 ∈ httpMethods, ∀ m2 ∈ httpMethods, m1 ≠ m2 → jsToUpper m1 ≠ jsToUpper m2 := by
  decide

theorem mem_block {p : String} {l : List (String × RawOperation)} {e : DiffEndpoint}
    (he : e ∈ (l.filter (fun mo => httpMethods.contains mo.1)).map (mkDiffEndpoint p)) :
    ∃ mo ∈ l, httpMethods.contains mo.1 = true ∧ e = mkDiffEndpoint p mo := by
  rcases List.mem_map.mp he with ⟨mo, hmo, rfl⟩
  rcases List.mem_filter.mp hmo with ⟨hmem, hkept⟩
  exact ⟨mo, hmem, hkept, rfl⟩

theorem mem_extract_path {paths : List (String × List (String × RawOperation))}
    {e : DiffEndpoint} (he : e ∈ extractDiffEndpoints paths) :
    ∃ pi ∈ paths, e.path = pi.1 := by
  rcases List.mem_flatMap.mp he with ⟨pi, hpi, hb⟩
  rcases mem_block hb with ⟨mo, _, _, rfl⟩
  exact ⟨pi, hpi, rfl⟩

/-- Definitional unfolding of `keysDistinctB` at a cons cell. -/
theorem keysDistinctB_cons (e : DiffEndpoint) (rest : List DiffEndpoint) :
    keysDistinctB (e :: rest) =
      (rest.all (fun o => !(o.path == e.path && o.method == e.method)) &&
        keysDistinctB rest) := rfl

theorem keysDistinctB_append {A B : List DiffEndpoint}
    (hA : keysDistinctB A = true) (hB : keysDistinctB B = true)
    (hcross : ∀ e ∈ A, ∀ o ∈ B, (o.path == e.path && o.method == e.method) = false) :
    keysDistinctB (A ++ B) = true := by
  induction A with
  | nil => exact hB
  | cons e A' ih =>
    rw [List.cons_append, keysDistinctB_cons, Bool.and_eq_true]
    rw [keysDistinctB_cons, Bool.and_eq_true] at hA
    constructor
    · rw [List.all_eq_true]
      intro o ho
      rcases List.mem_append.mp ho with ho' | ho'
      · exact List.all_eq_true.mp hA.1 o ho'
      · rw [Bool.not_eq_true']
        exact hcross e (List.mem_cons_self _ _) o ho'
    · exact ih hA.2 (fun a ha o ho => hcross a (List.mem_cons_of_mem _ ha) o ho)

theorem keysDistinctB_block (p : String) (l : List (String × RawOperation))
    (hnd : nodupKeysB (l.map Prod.fst) = true) :
    keysDistinctB
      ((l.filter (fun mo => httpMethods.contains mo.1)).map (mkDiffEndpoint p)) = true := by
  induction l with
  | nil => rfl
  | cons mo rest ih =>
    have hnd' : (!((rest.map Prod.fst).contains mo.1) &&
        nodupKeysB (rest.map Prod.fst)) = true := hnd
    rw [Bool.and_eq_true, Bool.not_eq_true'] at hnd'
    rw [List.filter_cons]
    by_cases hk : httpMethods.contains mo.1 = true
    · rw [if_pos hk, List.map_cons, keysDistinctB_cons, Bool.and_eq_true]
      constructor
      · rw [List.all_eq_true]
        intro o ho
        rcases mem_block ho with ⟨mo', hmo', hk', rfl⟩
        rw [Bool.not_eq_true']
        have hne : mo'.1 ≠ mo.1 := by
          intro hcon
          have hmem : mo.1 ∈ rest.map Prod.fst := by
            rw [← hcon]
            exact List.mem_map.mpr ⟨mo', hmo', rfl⟩
          have hc : (rest.map Prod.fst).contains mo.1 = true := by simpa using hmem
          rw [hnd'.1] at hc
          exact Bool.noConfusion hc
        have hmeth : jsToUpper mo'.1 ≠ jsToUpper mo.1 :=
          jsToUpper_verb_inj mo'.1 (by simpa using hk') mo.1 (by simpa using hk) hne
        simp [mkDiffEndpoint, beq_iff_eq, hmeth]
      · exact ih hnd'.2
    · rw [if_neg hk]
      exact ih hnd'.2

theorem keysDistinctB_extract (paths : List (String × List (String × RawOperation)))
    (hw : pathsWellKeyedB paths = true) :
    keysDistinctB (extractDiffEndpoints paths) = true := by
  induction paths with
  | nil => rfl
  | cons pi rest ih =>
    have hw' : (nodupKeysB ((pi :: rest).map Prod.fst) &&
        (pi :: rest).all (fun q => nodupKeysB (q.2.map Prod.fst))) = true := hw
    rw [Bool.and_eq_true] at hw'
    obtain ⟨hnp, hall⟩ := hw'
    have hnp' : (!((rest.map Prod.fst).contains pi.1) &&
        nodupKeysB (rest.map Prod.fst)) = true := hnp
    rw [Bool.and_eq_true, Bool.not_eq_true'] at hnp'
    rw [List.all_eq_true] at hall
    show keysDistinctB
      ((pi.2.filter (fun mo => httpMethods.contains mo.1)).map (mkDiffEndpoint pi.1) ++
        extractDiffEndpoints rest) = true
    apply keysDistinctB_append
    · exact keysDistinctB_block pi.1 pi.2 (hall pi (List.mem_cons_self _ _))
    · apply ih
      show (nodupKeysB (rest.map Prod.fst) &&
        rest.all (fun q => nodupKeysB (q.2.map Prod.fst))) = true
      rw [Bool.and_eq_true]
      exact ⟨hnp'.2, List.all_eq_true.mpr (fun q hq => hall q (List.mem_cons_of_mem _ hq))⟩
    · intro e he o ho
      rcases mem_block he with ⟨mo, _, _, rfl⟩
      rcases mem_extract_path ho with ⟨pj, hpj, hopath⟩
      have hne : pj.1 ≠ pi.1 := by
        intro hcon
        have hmem : pi.1 ∈ rest.map Prod.fst := by
          rw [← hcon]
          exact List.mem_map.mpr ⟨pj, hpj, rfl⟩
        have hc : (rest.map Prod.fst).contains pi.1 = true := by simpa using hmem
        rw [hnp'.1] at hc
        exact Bool.noConfusion hc
      have hop : (o.path == (mkDiffEndpoint pi.1 mo).path) = false := by
        rw [beq_eq_false_iff_ne, hopath]
        exact hne
      rw [hop, Bool.false_and]

theorem find?_key_self {l : List DiffEndpoint} {e : DiffEndpoint}
    (hk : keysDistinctB l = true) (he : e ∈ l) :
    l.find? (fun o => o.path == e.path && o.method == e.method) = some e := by
  induction l with
  | nil => simp at he
  | cons a rest ih =>
    have hk' : (rest.all (fun o => !(o.path == a.path && o.method == a.method)) &&
        keysDistinctB rest) = true := hk
    rw [Bool.and_eq_true] at hk'
    rcases List.mem_cons.mp he with rfl | hmem
    · exact List.find?_cons_of_pos _ (by simp)
    · have hall := List.all_eq_true.mp hk'.1 e hmem
      rw [Bool.not_eq_true'] at hall
      have hne : ¬(a.path == e.path && a.method == e.method) = true := by
        intro hcon
        rw [Bool.and_eq_true, beq_iff_eq, beq_iff_eq] at hcon
        have hsym : (e.path == a.path && e.method == a.method) = true := by
          rw [Bool.and_eq_true, beq_iff_eq, beq_iff_eq]
          exact ⟨hcon.1.symm, hcon.2.symm⟩
        rw [hsym] at hall
        exact Bool.noConfusion hall
      rw [@List.find?_cons_of_neg _ (fun o => o.path == e.path && o.method == e.method)
        a rest hne]
      exact ih hk'.2 hmem

/-- C4: diffing a document against itself yields `hasChanges = false`, all six
change buckets empty and an empty breaking-change list.  The hypothesis —
automatic for every document parsed from JS objects, whose keys are
unique — is that path keys and per-path verb keys are duplicate-free. -/
theorem C4_diff_identity (d : DiffSpec)
    (hw : pathsWellKeyedB (d.paths.getD []) = true) :
    (detectChanges d d).hasChanges = false ∧
    (detectChanges d d).endpointsAdded = [] ∧
    (detectChanges d d).endpointsRemoved = [] ∧
    (detectChanges d d).endpointsModified = [] ∧
    (detectChanges d d).schemasAdded = [] ∧
    (detectChanges d d).schemasRemoved = [] ∧
    (detectChanges d d).schemasModified = [] ∧
    (detectChanges d d).breaking = [] := by
  have hk : keysDistinctB (extractDiffEndpoints (d.paths.getD [])) = true :=
    keysDistinctB_extract _ hw
  have hkey : ∀ e ∈ extractDiffEndpoints (d.paths.getD []),
      hasKeyOf (extractDiffEndpoints (d.paths.getD [])) e = true := by
    intro e he
    rw [hasKeyOf, List.any_eq_true]
    exact ⟨e, he, by simp⟩
  have hadd : (extractDiffEndpoints (d.paths.getD [])).filter
      (fun e => !(hasKeyOf (extractDiffEndpoints (d.paths.getD [])) e)) = [] := by
    rw [List.filter_eq_nil_iff]
    intro e he
    simp [hkey e he]
  have hmod : (extractDiffEndpoints (d.paths.getD [])).filterMap (fun e =>
      match (extractDiffEndpoints (d.paths.getD [])).find?
        (fun o => o.path == e.path && o.method == e.method) with
      | some o => if endpointChanged o e then some (e, getEndpointChanges o e) else none
      | none => none) = [] := by
    rw [List.filterMap_eq_nil_iff]
    intro e he
    rw [find?_key_self hk he]
    simp [endpointChanged]
  have hsadd : ((d.componentsSchemas.getD []).map Prod.fst).filter
      (fun nm => !(((d.componentsSchemas.getD []).map Prod.fst).contains nm)) = [] := by
    rw [List.filter_eq_nil_iff]
    intro a ha
    simp [ha]
  have hsmod : ((d.componentsSchemas.getD []).map Prod.fst).filter
      (fun nm => ((d.componentsSchemas.getD []).map Prod.fst).contains nm &&
        decide ((d.componentsSchemas.getD []).lookup nm ≠
          (d.componentsSchemas.getD []).lookup nm)) = [] := by
    rw [List.filter_eq_nil_iff]
    intro a _
    simp
  refine ⟨?_, hadd, hadd, hmod, hsadd, hsadd, hsmod, ?_⟩
  · show (decide (0 < ((extractDiffEndpoints (d.paths.getD [])).filter
        (fun e => !(hasKeyOf (extractDiffEndpoints (d.paths.getD [])) e))).length) ||
      decide (0 < ((extractDiffEndpoints (d.paths.getD [])).filter
        (fun e => !(hasKeyOf (extractDiffEndpoints (d.paths.getD [])) e))).length) ||
      decide (0 < ((extractDiffEndpoints (d.paths.getD [])).filterMap (fun e =>
        match (extractDiffEndpoints (d.paths.getD [])).find?
          (fun o => o.path == e.path && o.method == e.method) with
        | some o => if endpointChanged o e then some (e, getEndpointChanges o e) else none
        | none => none)).length) ||
      decide (0 < (((d.componentsSchemas.getD []).map Prod.fst).filter
        (fun nm => !(((d.componentsSchemas.getD []).map Prod.fst).contains nm))).length) ||
      decide (0 < (((d.componentsSchemas.getD []).map Prod.fst).filter
        (fun nm => !(((d.componentsSchemas.getD []).map Prod.fst).contains nm))).length) ||
      decide (0 < (((d.componentsSchemas.getD []).map Prod.fst).filter
        (fun nm => ((d.componentsSchemas.getD []).map Prod.fst).contains nm &&
          decide ((d.componentsSchemas.getD []).lookup nm ≠
            (d.componentsSchemas.getD []).lookup nm))).length) ||
      decide (d.infoVersion ≠ d.infoVersion) || decide (d.infoTitle ≠ d.infoTitle)) = false
    rw [hadd, hmod, hsadd, hsmod]
    simp
  · show ((extractDiffEndpoints (d.paths.getD [])).filter
        (fun e => !(hasKeyOf (extractDiffEndpoints (d.paths.getD [])) e))).map _ ++
      (((d.componentsSchemas.getD []).map Prod.fst).filter
        (fun nm => !(((d.componentsSchemas.getD []).map Prod.fst).contains nm))).map _ = []
    rw [hadd, hsadd]
    rfl

/-- C4 witness: the theorem applied to a concrete document. -/
theorem C4_witness :
    pathsWellKeyedB (selfDiffSpec.paths.getD []) = true ∧
    ((detectChanges selfDiffSpec selfDiffSpec).hasChanges = false ∧
     (detectChanges selfDiffSpec selfDiffSpec).endpointsAdded = [] ∧
     (detectChanges selfDiffSpec selfDiffSpec).endpointsRemoved = [] ∧
     (detectChanges selfDiffSpec selfDiffSpec).endpointsModified = [] ∧
     (detectChanges selfDiffSpec selfDiffSpec).schemasAdded = [] ∧
     (detectChanges selfDiffSpec selfDiffSpec).schemasRemoved = [] ∧
     (detectChanges selfDiffSpec selfDiffSpec).schemasModified = [] ∧
     (detectChanges selfDiffSpec selfDiffSpec).breaking = []) :=
  ⟨by decide, C4_diff_identity selfDiffSpec (by decide)⟩

/-!  Claim C9: fuel monotonicity and totality of `generateFromSchema`. -/

theorem generateObjectProps_mono (g g' : Schema → Option Json)
    (hg : ∀ s v, g s = some v → g' s = some v) (req : List String) :
    ∀ (props : List (String × Schema)) (l : List (String × Json)),
      generateObjectProps g req props = some l →
      generateObjectProps g' req props = some l := by
  intro props
  induction props with
  | nil => intro l h; exact h
  | cons p rest ih =>
    intro l h
    obtain ⟨pn, ps⟩ := p
    rw [generateObjectProps_cons] at h ⊢
    by_cases hc : (ps.xNull && !(req.contains pn)) = true
    · rw [if_pos hc] at h ⊢
      exact ih l h
    · rw [if_neg hc] at h ⊢
      cases hgps : g ps with
      | none => rw [hgps] at h; cases h
      | some v =>
        rw [hgps] at h
        rw [hg ps v hgps]
        cases hrest : generateObjectProps g req rest with
        | none => rw [hrest] at h; cases h
        | some l' =>
          rw [hrest] at h
          rw [ih l' hrest]
          exact h

theorem generateFromSchema_mono (defs : List (String × Schema)) (now : String) :
    ∀ (n : Nat) (s : Schema) (v : Json), generateFromSchema defs now n s = some v →
      generateFromSchema defs now (n + 1) s = some v := by
  intro n
  induction n with
  | zero => intro s v h; exact Option.noConfusion h
  | succ n ih =>
    intro s v h
    obtain ⟨ref, ty, props, req, items, ex, fmt, enumVals, minimum, xn⟩ := s
    cases ref with
    | some r =>
      rw [generateFromSchema_ref] at h ⊢
      cases hlk : defs.lookup (stripDefinitionsRef r) with
      | some d =>
        rw [hlk] at h
        exact ih d v h
      | none =>
        rw [hlk] at h
        exact h
    | none =>
      cases ty with
      | none => exact h
      | some t =>
        rw [generateFromSchema_ty] at h ⊢
        by_cases ho : t = "object"
        · rw [if_pos ho] at h ⊢
          rcases Option.map_eq_some'.mp h with ⟨a, ha, hb⟩
          rw [Option.map_eq_some']
          exact ⟨a, generateObjectProps_mono _ _ (fun s v hs => ih s v hs) req props a ha, hb⟩
        · rw [if_neg ho] at h ⊢
          by_cases ha : t = "array"
          · rw [if_pos ha] at h ⊢
            cases items with
            | some it =>
              revert h
              show (match generateFromSchema defs now n it with
                    | none => none
                    | some j => some (if jsTruthy j then Json.arr [j] else Json.arr [])) =
                  some v →
                  (match generateFromSchema defs now (n + 1) it with
                    | none => none
                    | some j => some (if jsTruthy j then Json.arr [j] else Json.arr [])) =
                  some v
              cases hit : generateFromSchema defs now n it with
              | none => intro h; exact Option.noConfusion h
              | some j =>
                intro h
                rw [ih it j hit]
                exact h
            | none => exact h
          · rw [if_neg ha] at h ⊢
            exact h

theorem generateFromSchema_mono_le (defs : List (String × Schema)) (now : String)
    {n m : Nat} (hnm : n ≤ m) {s : Schema} {v : Json}
    (h : generateFromSchema defs now n s = some v) :
    generateFromSchema defs now m s = some v := by
  induction hnm with
  | refl => exact h
  | step _ ih => exact generateFromSchema_mono defs now _ _ _ ih

theorem generateObjectProps_isSome (g : Schema → Option Json) (req : List String) :
    ∀ (props : List (String × Schema)), (∀ p ∈ props, (g p.2).isSome) →
      (generateObjectProps g req props).isSome := by
  intro props
  induction props with
  | nil => intro _; rfl
  | cons p rest ih =>
    intro h
    obtain ⟨pn, ps⟩ := p
    rw [generateObjectProps_cons]
    by_cases hc : (ps.xNull && !(req.contains pn)) = true
    · rw [if_pos hc]
      exact ih (fun q hq => h q (List.mem_cons_of_mem _ hq))
    · rw [if_neg hc]
      rcases Option.isSome_iff_exists.mp (h (pn, ps) (List.mem_cons_self _ _)) with ⟨v, hv⟩
      rw [hv]
      rcases Option.isSome_iff_exists.mp
        (ih (fun q hq => h q (List.mem_cons_of_mem _ hq))) with ⟨l, hl⟩
      rw [hl]
      rfl

theorem exists_uniform_fuel (defs : List (String × Schema)) (now : String) :
    ∀ (props : List (String × Schema)),
      (∀ p ∈ props, ∃ n, (generateFromSchema defs now n p.2).isSome) →
      ∃ N, ∀ p ∈ props, (generateFromSchema defs now N p.2).isSome := by
  intro props
  induction props with
  | nil => intro _; exact ⟨0, fun p hp => absurd hp (List.not_mem_nil p)⟩
  | cons q rest ih =>
    intro h
    obtain ⟨n1, h1⟩ := h q (List.mem_cons_self _ _)
    obtain ⟨N, hN⟩ := ih (fun p hp => h p (List.mem_cons_of_mem _ hp))
    refine ⟨max n1 N, ?_⟩
    intro p hp
    rcases List.mem_cons.mp hp with rfl | hp'
    · rcases Option.isSome_iff_exists.mp h1 with ⟨v, hv⟩
      rw [generateFromSchema_mono_le defs now (Nat.le_max_left n1 N) hv]
      rfl
    · rcases Option.isSome_iff_exists.mp (hN p hp') with ⟨v, hv⟩
      rw [generateFromSchema_mono_le defs now (Nat.le_max_right n1 N) hv]
      rfl

/-- Definitional unfolding of `refNamesL` at a cons cell. -/
theorem refNamesL_cons (p : String × Schema) (rest : List (String × Schema)) :
    refNamesL (p :: rest) = refNames p.2 ++ refNamesL rest := by
  rw [refNamesL.eq_def]

theorem refNamesL_mem {props : List (String × Schema)} {p : String × Schema}
    (hp : p ∈ props) {m : String} (hm : m ∈ refNames p.2) : m ∈ refNamesL props := by
  induction props with
  | nil => simp at hp
  | cons q rest ih =>
    rw [refNamesL_cons]
    rcases List.mem_cons.mp hp with rfl | hp'
    · exact List.mem_append_left _ hm
    · exact List.mem_append_right _ (ih hp')

theorem sizeOf_prop_lt (p : String × Schema) (props : List (String × Schema))
    (hmem : p ∈ props) (ref ty : Option String) (req : List String) (items : Option Schema)
    (ex : Option Json) (fmt : Option String) (enumVals : List Json) (minimum : Option Json)
    (xn : Bool) :
    sizeOf p.2 < sizeOf (Schema.mk ref ty props req items ex fmt enumVals minimum xn) := by
  have h1 := List.sizeOf_lt_of_mem hmem
  obtain ⟨pn, ps⟩ := p
  simp only [Prod.mk.sizeOf_spec] at h1
  simp only [Schema.mk.sizeOf_spec]
  omega

theorem sizeOf_items_lt (it : Schema) (ref ty : Option String)
    (props : List (String × Schema)) (req : List String) (ex : Option Json)
    (fmt : Option String) (enumVals : List Json) (minimum : Option Json) (xn : Bool) :
    sizeOf it < sizeOf (Schema.mk ref ty props req (some it) ex fmt enumVals minimum xn) := by
  simp only [Schema.mk.sizeOf_spec, Option.some.sizeOf_spec]
  omega

/-- An upper bound for the ranks of a list of names. -/
def rankBound (rank : String → Nat) (l : List String) : Nat :=
  l.foldr (fun m acc => max (rank m + 1) acc) 0

theorem rank_lt_rankBound (rank : String → Nat) :
    ∀ {l : List String} {m : String}, m ∈ l → rank m < rankBound rank l := by
  intro l
  induction l with
  | nil => intro m hm; simp at hm
  | cons a rest ih =>
    intro m hm
    rcases List.mem_cons.mp hm with rfl | hm'
    · exact lt_of_lt_of_le (Nat.lt_succ_self _) (le_max_left _ _)
    · exact lt_of_lt_of_le (ih hm') (le_max_right _ _)

/-- Totality of `generateFromSchema` on schemas whose references are ranked
below `k` by an acyclicity witness: some fuel makes synthesis succeed.
The outer strong induction is on the rank bound (decreasing across each
reference resolution), the inner one on the size of the schema tree
(decreasing into properties and items). -/
theorem generateFromSchema_total (defs : List (String × Schema)) (now : String)
    (rank : String → Nat) (hA : Acyclic defs rank) :
    ∀ (k : Nat) (s : Schema), (∀ m ∈ refNames s, rank m < k) →
      ∃ n, (generateFromSchema defs now n s).isSome := by
  intro k
  induction k using Nat.strong_induction_on with
  | _ k IHk =>
    suffices H : ∀ (sz : Nat) (s : Schema), sizeOf s < sz →
        (∀ m ∈ refNames s, rank m < k) →
        ∃ n, (generateFromSchema defs now n s).isSome by
      exact fun s hb => H (sizeOf s + 1) s (Nat.lt_succ_self _) hb
    intro sz
    induction sz with
    | zero => intro s hsz; exact absurd hsz (Nat.not_lt_zero _)
    | succ sz ihsz =>
      intro s hsz hb
      obtain ⟨ref, ty, props, req, items, ex, fmt, enumVals, minimum, xn⟩ := s
      cases ref with
      | some r =>
        cases hlk : defs.lookup (stripDefinitionsRef r) with
        | none =>
          refine ⟨0 + 1, ?_⟩
          rw [generateFromSchema_ref, hlk]
          rfl
        | some d =>
          have hmemr : stripDefinitionsRef r ∈
              refNames (Schema.mk (some r) ty props req items ex fmt enumVals minimum xn) := by
            rw [refNames_mk]
            exact List.mem_append_left _ (List.mem_append_left _ (List.mem_cons_self _ _))
          have hrk : rank (stripDefinitionsRef r) < k := hb _ hmemr
          have hd : ∀ m ∈ refNames d, rank m < rank (stripDefinitionsRef r) :=
            fun m hm => hA _ (lookup_mem hlk) m hm
          obtain ⟨n, hn⟩ := IHk (rank (stripDefinitionsRef r)) hrk d hd
          refine ⟨n + 1, ?_⟩
          rw [generateFromSchema_ref, hlk]
          exact hn
      | none =>
        cases ty with
        | none => exact ⟨0 + 1, rfl⟩
        | some t =>
          by_cases ho : t = "object"
          · subst ho
            have hprops : ∀ p ∈ props, ∃ n, (generateFromSchema defs now n p.2).isSome := by
              intro p hp
              apply ihsz
              · exact lt_of_lt_of_le
                  (sizeOf_prop_lt p props hp none (some "object") req items ex fmt enumVals
                    minimum xn)
                  (Nat.lt_succ_iff.mp hsz)
              · intro m hm
                apply hb
                rw [refNames_mk]
                exact List.mem_append_left _ (List.mem_append_right _ (refNamesL_mem hp hm))
            obtain ⟨N, hN⟩ := exists_uniform_fuel defs now props hprops
            refine ⟨N + 1, ?_⟩
            rw [generateFromSchema_ty, if_pos rfl]
            rcases Option.isSome_iff_exists.mp
              (generateObjectProps_isSome (generateFromSchema defs now N) req props hN)
              with ⟨l, hl⟩
            rw [hl]
            rfl
          · by_cases harr : t = "array"
            · subst harr
              cases items with
              | none =>
                refine ⟨0 + 1, ?_⟩
                rw [generateFromSchema_ty, if_neg (by decide), if_pos rfl]
                rfl
              | some it =>
                have hit : ∃ n, (generateFromSchema defs now n it).isSome := by
                  apply ihsz
                  · exact lt_of_lt_of_le
                      (sizeOf_items_lt it none (some "array") props req ex fmt enumVals
                        minimum xn)
                      (Nat.lt_succ_iff.mp hsz)
                  · intro m hm
                    apply hb
                    rw [refNames_mk]
                    exact List.mem_append_right _ hm
                obtain ⟨n, hn⟩ := hit
                rcases Option.isSome_iff_exists.mp hn with ⟨j, hj⟩
                refine ⟨n + 1, ?_⟩
                rw [generateFromSchema_ty, if_neg (by decide), if_pos rfl]
                show (match generateFromSchema defs now n it with
                      | none => none
                      | some j =>
                        some (if jsTruthy j then Json.arr [j] else Json.arr [])).isSome = true
                rw [hj]
                rfl
            · refine ⟨0 + 1, ?_⟩
              rw [generateFromSchema_ty, if_neg ho, if_neg harr]
              by_cases hstr : t = "string"
              · rw [if_pos hstr]; rfl
              · rw [if_neg hstr]
                by_cases hint : t = "integer"
                · rw [if_pos hint]; rfl
                · rw [if_neg hint]
                  by_cases hnum : t = "number"
                  · rw [if_pos hnum]; rfl
                  · rw [if_neg hnum]
                    by_cases hbool : t = "boolean"
                    · rw [if_pos hbool]; rfl
                    · rw [if_neg hbool]; rfl

/-- C9: synthesis is total on well-formed schemas — for every schema that is
acyclic (witnessed by a rank function on reference names) and all of
whose references resolve, some finite fuel makes `generateFromSchema`
return a result (possibly `null`), and the result is stable under any
larger fuel: the recursion terminates. -/
theorem C9_synthesis_total (defs : List (String × Schema)) (now : String)
    (rank : String → Nat) (s : Schema)
    (hA : Acyclic defs rank) (_hR : Resolvable defs)
    (_hs : ∀ m ∈ refNames s, (defs.lookup m).isSome) :
    ∃ n, (generateFromSchema defs now n s).isSome ∧
      ∀ m, n ≤ m → generateFromSchema defs now m s = generateFromSchema defs now n s := by
  obtain ⟨n, hn⟩ := generateFromSchema_total defs now rank hA
    (rankBound rank (refNames s)) s (fun m hm => rank_lt_rankBound rank hm)
  rcases Option.isSome_iff_exists.mp hn with ⟨v, hv⟩
  refine ⟨n, hn, ?_⟩
  intro m hm
  rw [generateFromSchema_mono_le defs now hm hv, hv]

/-- A definitions-table entry for the C9 witness. -/
def accountSchema : Schema :=
  Schema.mk none (some "object") [("id", uuidSchema)] ["id"] none none none [] none false

/-- A reference node pointing at `Account`. -/
def accountRefSchema : Schema :=
  Schema.mk (some "#/definitions/Account") none [] [] none none none [] none false

/-- A one-entry definitions table. -/
def demoDefs : List (String × Schema) := [("Account", accountSchema)]

/-- A rank function witnessing acyclicity of `demoDefs`. -/
def demoRank : String → Nat := fun _ => 0

/-- C9 witness: the totality theorem applied to a concrete acyclic,
resolvable reference schema. -/
theorem C9_witness :
    Acyclic demoDefs demoRank ∧ Resolvable demoDefs ∧
    (∀ m ∈ refNames accountRefSchema, (demoDefs.lookup m).isSome) ∧
    (∃ n, (generateFromSchema demoDefs "t" n accountRefSchema).isSome ∧
      ∀ m, n ≤ m → generateFromSchema demoDefs "t" m accountRefSchema =
        generateFromSchema demoDefs "t" n accountRefSchema) :=
  ⟨by unfold Acyclic; decide, by unfold Resolvable; decide, by decide,
   C9_synthesis_total demoDefs "t" demoRank accountRefSchema
     (by unfold Acyclic; decide) (by unfold Resolvable; decide) (by decide)⟩

end WpeCapi
